import Mathlib

/-!
Verification of the job lifecycle manager (`src/taipy/job/job_manager.py`).

The manager itself (`JobManager`) is embedded directly from the source.
The collaborators `Job`, `Task` and `JobRepository` are not part of the
source tree; they are modelled from the specification (§3, §4.2, §6).
-/

/-- Modelled from the spec (§4.2): the finite set of job lifecycle states.
`src/taipy/job/job.py` is not in the source tree. -/
inductive JobStatus
  | submitted
  | blocked
  | pending
  | running
  | completed
  | failed
  | canceled
deriving DecidableEq, Repr

/-- Modelled from the spec (§3): a job record. `task` is the opaque task
reference, `creationSeq` the strictly increasing creation sequence value,
`subscribers` the ordered callback handles. -/
structure Job where
  id : String
  task : Nat
  status : JobStatus
  creationSeq : Nat
  subscribers : List Nat
deriving DecidableEq, Repr

/-- Modelled from the spec (§4.2): `is_finished()` is true exactly for the
terminal states COMPLETED, FAILED, CANCELED. -/
def Job.is_finished (j : Job) : Bool :=
  match j.status with
  | .completed => true
  | .failed => true
  | .canceled => true
  | _ => false

/-- Modelled from the spec (§4.2): the task-membership predicate
(`task in job` in the source) is exact identity match on the task
reference. -/
def Job.containsTask (j : Job) (t : Nat) : Bool :=
  j.task == t

/-- Modelled from the spec (§4.2): jobs are ordered by creation order
(`Job.__lt__`). -/
def Job.lt (a b : Job) : Bool :=
  a.creationSeq < b.creationSeq

/-- Modelled from the spec (§6): the repository state is the sequence of
persisted job records, addressed by job identity. -/
abbrev RepoState := List Job

/-- Modelled from the spec (§6): `save(job)` is an upsert by identity —
it overwrites any prior record with the same identity, otherwise appends. -/
def repoSave (s : RepoState) (j : Job) : RepoState :=
  if s.any (fun r => r.id == j.id) then
    s.map (fun r => if r.id == j.id then j else r)
  else
    s ++ [j]

/-- Modelled from the spec (§6): `load(job_id)` finds the record with the
given identity; `none` models the `ModelNotFound` condition. -/
def repoLoad (s : RepoState) (i : String) : Option Job :=
  s.find? (fun r => r.id == i)

/-- Modelled from the spec (§6): `delete(job_id)` removes the record with
the given identity. -/
def repoDelete (s : RepoState) (i : String) : RepoState :=
  s.filter (fun r => r.id != i)

/-- Modelled from the spec (§6): `delete_all()` removes every record. -/
def repoDeleteAll (_s : RepoState) : RepoState :=
  []

/-- Modelled from the spec (§6): `load_all()` returns the full set of
persisted records. -/
def repoLoadAll (s : RepoState) : List Job :=
  s

/-- Severity of a log record (`logging.error` / `logging.warning`). -/
inductive Severity
  | error
  | warning
deriving DecidableEq, Repr

/-- One log record emitted by the manager. -/
structure LogEntry where
  sev : Severity
  msg : String
deriving DecidableEq, Repr

/-- The errors that can cross the manager boundary.  `nonExistingJob` and
`jobNotDeletedException` are the domain taxonomy of the manager (§7);
`valueError` is the Python built-in raised by `max()` on an empty
sequence. -/
inductive MgrError
  | nonExistingJob (id : String)
  | jobNotDeletedException (id : String)
  | valueError (msg : String)
deriving DecidableEq, Repr

/-- True exactly on the own error taxonomy of the manager (§7). -/
def MgrError.isDomainError : MgrError → Bool
  | .nonExistingJob _ => true
  | .jobNotDeletedException _ => true
  | .valueError _ => false

/-- Hex digit character, lowercase, as in the canonical UUID rendering. -/
def hexChar (n : Nat) : Char :=
  if n < 10 then Char.ofNat (48 + n) else Char.ofNat (87 + n)

/-- Big-endian fixed-width base-16 digit list of a natural number. -/
def hexDigits : Nat → Nat → List Char
  | 0, _ => []
  | w + 1, v => hexDigits w (v / 16) ++ [hexChar (v % 16)]

/-- Numeric value of a lowercase hex digit character (decoding inverse of
`hexChar`, used only in proofs). -/
def hexCharVal (c : Char) : Nat :=
  if c.toNat < 97 then c.toNat - 48 else c.toNat - 87

/-- Numeric value of a big-endian hex digit list (decoding inverse of
`hexDigits`, used only in proofs). -/
def hexListVal (l : List Char) : Nat :=
  l.foldl (fun acc c => 16 * acc + hexCharVal c) 0

/-- Groups a 32-hex-digit list as 8-4-4-4-12 separated by dashes. -/
def uuidDashed (ds : List Char) : List Char :=
  ds.take 8 ++ '-' :: (ds.drop 8).take 4 ++ '-' :: (ds.drop 12).take 4
    ++ '-' :: (ds.drop 16).take 4 ++ '-' :: ds.drop 20

/-- Canonical string form of a 128-bit identifier: 32 lowercase hex digits
in groups of 8-4-4-4-12 separated by dashes (`str(uuid.uuid4())`). -/
def uuidCanonical (u : Nat) : String :=
  String.mk (uuidDashed (hexDigits 32 (u % 2 ^ 128)))

/-- From the source: the identifier allocated by `JobManager.create` is
`f"JOB_{uuid.uuid4()}"`, where `u` stands for the drawn 128-bit random
value. -/
def createJobId (u : Nat) : String :=
  "JOB_" ++ uuidCanonical u

namespace JobManager

/-- From the source: `set` saves or updates a job via `repository.save`. -/
def set (s : RepoState) (j : Job) : RepoState :=
  repoSave s j

/-- From the source: `get` loads by id; on `ModelNotFound` it logs at error
severity and raises `NonExistingJob`. Returns the result paired with the
emitted log records. -/
def get (s : RepoState) (i : String) : Except MgrError Job × List LogEntry :=
  match repoLoad s i with
  | some j => (.ok j, [])
  | none =>
    (.error (.nonExistingJob i), [⟨.error, "Job: " ++ i ++ " does not exist."⟩])

/-- From the source: `get_all` returns every persisted job. -/
def get_all (s : RepoState) : List Job :=
  repoLoadAll s

/-- From the source: `create` builds a job with id `f"JOB_{uuid.uuid4()}"`
for the task, persists it via `set`, then registers the callbacks as
status-change subscribers, and returns the job. `u` is the drawn 128-bit
random value and `seq` the creation sequence value assigned to the job. -/
def create (s : RepoState) (u : Nat) (seq : Nat) (t : Nat) (callbacks : List Nat) :
    Job × RepoState :=
  let job : Job :=
    { id := createJobId u, task := t, status := .submitted,
      creationSeq := seq, subscribers := [] }
  let s' := set s job
  ({ job with subscribers := job.subscribers ++ callbacks }, s')

/-- From the source: `delete` removes the record of `job.id` when
`job.is_finished() or force`; otherwise it logs a warning and raises
`JobNotDeletedException`, leaving the state unchanged. Returns the
result, the new state, and the emitted log records. -/
def delete (s : RepoState) (j : Job) (force : Bool) :
    Except MgrError Unit × RepoState × List LogEntry :=
  if j.is_finished || force then
    (.ok (), repoDelete s j.id, [])
  else
    (.error (.jobNotDeletedException j.id), s,
      [⟨.warning, "JobNotDeletedException: " ++ j.id⟩])

/-- From the source: `delete_all` deletes all jobs. -/
def delete_all (s : RepoState) : RepoState :=
  repoDeleteAll s

/-- Python `max` over a sequence of jobs under `Job.lt`: `ValueError` on an
empty sequence, otherwise the left fold keeping the current maximum. -/
def pyMax : List Job → Except MgrError Job
  | [] => .error (.valueError "max() arg is an empty sequence")
  | j :: rest => .ok (rest.foldl (fun acc x => if acc.lt x then x else acc) j)

/-- From the source: `get_latest_job` is
`max(filter(lambda job: task in job, cls.get_all()))`. -/
def get_latest_job (s : RepoState) (t : Nat) : Except MgrError Job :=
  pyMax ((get_all s).filter (fun j => j.containsTask t))

end JobManager

/-! ## Repository lemmas -/

theorem repoLoad_repoSave_self (s : RepoState) (j : Job) :
    repoLoad (repoSave s j) j.id = some j := by
  unfold repoSave repoLoad
  by_cases h : s.any (fun r => r.id == j.id) = true
  · rw [if_pos h]
    induction s with
    | nil => simp at h
    | cons r s ih =>
      rw [List.map_cons]
      by_cases hr : (r.id == j.id) = true
      · rw [if_pos hr]
        exact List.find?_cons_of_pos _ (by simp)
      · rw [if_neg hr, List.find?_cons_of_neg _ (by simp [hr])]
        apply ih
        simp only [List.any_cons, hr, Bool.false_or] at h
        exact h
  · rw [if_neg h, List.find?_append]
    have hnone : s.find? (fun r => r.id == j.id) = none := by
      rw [List.find?_eq_none]
      intro x hx hpx
      exact h (List.any_eq_true.mpr ⟨x, hx, hpx⟩)
    rw [hnone]
    simp

theorem repoLoad_repoDelete_self (s : RepoState) (i : String) :
    repoLoad (repoDelete s i) i = none := by
  unfold repoLoad repoDelete
  rw [List.find?_eq_none]
  intro x hx hpx
  have h2 := (List.mem_filter.mp hx).2
  simp only [bne, hpx, Bool.not_true] at h2
  exact Bool.noConfusion h2

theorem repoDelete_ne_of_mem (s : RepoState) (i : String) (r : Job)
    (h : repoLoad s i = some r) : repoDelete s i ≠ s := by
  intro heq
  have h2 := repoLoad_repoDelete_self s i
  rw [heq, h] at h2
  exact Option.noConfusion h2

/-! ## Hex rendering lemmas -/

theorem hexCharVal_hexChar_range : ∀ d ∈ List.range 16, hexCharVal (hexChar d) = d := by
  decide

theorem hexChar_ne_dash_range : ∀ d ∈ List.range 16, hexChar d ≠ '-' := by
  decide

theorem hexDigits_no_dash (w : Nat) : ∀ (v : Nat), ∀ c ∈ hexDigits w v, c ≠ '-' := by
  induction w with
  | zero => intro v c hc; cases hc
  | succ w ih =>
    intro v c hc
    rw [hexDigits] at hc
    rcases List.mem_append.mp hc with h | h
    · exact ih (v / 16) c h
    · rw [List.mem_singleton] at h
      rw [h]
      exact hexChar_ne_dash_range (v % 16) (List.mem_range.mpr (Nat.mod_lt _ (by norm_num)))

theorem hexDigits_val (w : Nat) : ∀ (v : Nat), v < 16 ^ w → hexListVal (hexDigits w v) = v := by
  induction w with
  | zero =>
    intro v h
    have hv : v = 0 := Nat.lt_one_iff.mp (by simpa using h)
    rw [hv]; rfl
  | succ w ih =>
    intro v h
    rw [hexDigits]
    unfold hexListVal
    rw [List.foldl_append]
    simp only [List.foldl_cons, List.foldl_nil]
    have hdiv : v / 16 < 16 ^ w := by
      rw [pow_succ, Nat.mul_comm] at h
      exact Nat.div_lt_of_lt_mul h
    have ihv := ih (v / 16) hdiv
    unfold hexListVal at ihv
    rw [ihv]
    have hcv : hexCharVal (hexChar (v % 16)) = v % 16 :=
      hexCharVal_hexChar_range (v % 16) (List.mem_range.mpr (Nat.mod_lt _ (by norm_num)))
    rw [hcv]
    exact Nat.div_add_mod v 16

theorem filter_uuidDashed (ds : List Char) (h : ∀ c ∈ ds, c ≠ '-') :
    (uuidDashed ds).filter (fun c => c != '-') = ds := by
  unfold uuidDashed
  have hp : ∀ (l : List Char), (∀ c ∈ l, c ∈ ds) → l.filter (fun c => c != '-') = l := by
    intro l hl
    rw [List.filter_eq_self]
    intro a ha
    simp only [bne]
    rw [beq_eq_false_iff_ne.mpr (h a (hl a ha))]
    rfl
  have hcons : ∀ l : List Char, (('-' : Char) :: l).filter (fun c => c != '-')
      = l.filter (fun c => c != '-') := by
    intro l
    exact List.filter_cons_of_neg (by decide)
  rw [List.filter_append, hcons, List.filter_append, hcons, List.filter_append, hcons,
    List.filter_append, hcons]
  rw [hp (ds.take 8) (fun c hc => List.mem_of_mem_take hc),
    hp ((ds.drop 8).take 4) (fun c hc => List.mem_of_mem_drop (List.mem_of_mem_take hc)),
    hp ((ds.drop 12).take 4) (fun c hc => List.mem_of_mem_drop (List.mem_of_mem_take hc)),
    hp ((ds.drop 16).take 4) (fun c hc => List.mem_of_mem_drop (List.mem_of_mem_take hc)),
    hp (ds.drop 20) (fun c hc => List.mem_of_mem_drop hc)]
  have e16 : (ds.drop 16).take 4 ++ ds.drop 20 = ds.drop 16 := by
    have h4 := List.take_append_drop 4 (ds.drop 16)
    rwa [List.drop_drop, (by rfl : (16 : Nat) + 4 = 20)] at h4
  have e12 : (ds.drop 12).take 4 ++ ds.drop 16 = ds.drop 12 := by
    have h4 := List.take_append_drop 4 (ds.drop 12)
    rwa [List.drop_drop, (by rfl : (12 : Nat) + 4 = 16)] at h4
  have e8 : (ds.drop 8).take 4 ++ ds.drop 12 = ds.drop 8 := by
    have h4 := List.take_append_drop 4 (ds.drop 8)
    rwa [List.drop_drop, (by rfl : (8 : Nat) + 4 = 12)] at h4
  simp only [List.append_assoc]
  rw [e16, e12, e8, List.take_append_drop]

theorem uuidCanonical_inj (u₁ u₂ : Nat)
    (h : (uuidCanonical u₁).data = (uuidCanonical u₂).data) :
    u₁ % 2 ^ 128 = u₂ % 2 ^ 128 := by
  have hd : uuidDashed (hexDigits 32 (u₁ % 2 ^ 128))
      = uuidDashed (hexDigits 32 (u₂ % 2 ^ 128)) := h
  have hf := congrArg (List.filter (fun c => c != '-')) hd
  rw [filter_uuidDashed _ (hexDigits_no_dash 32 _),
    filter_uuidDashed _ (hexDigits_no_dash 32 _)] at hf
  have hb : (16 : Nat) ^ 32 = 2 ^ 128 := by norm_num
  have h1 : u₁ % 2 ^ 128 < 16 ^ 32 := by
    rw [hb]; exact Nat.mod_lt _ (by positivity)
  have h2 : u₂ % 2 ^ 128 < 16 ^ 32 := by
    rw [hb]; exact Nat.mod_lt _ (by positivity)
  calc u₁ % 2 ^ 128 = hexListVal (hexDigits 32 (u₁ % 2 ^ 128)) :=
        (hexDigits_val 32 _ h1).symm
    _ = hexListVal (hexDigits 32 (u₂ % 2 ^ 128)) := congrArg hexListVal hf
    _ = u₂ % 2 ^ 128 := hexDigits_val 32 _ h2

/-! ## Identity-uniqueness lemmas -/

theorem map_id_repoSave_nodup (s : RepoState) (j : Job) (h : (s.map Job.id).Nodup) :
    ((repoSave s j).map Job.id).Nodup := by
  unfold repoSave
  by_cases hc : s.any (fun r => r.id == j.id) = true
  · rw [if_pos hc, List.map_map]
    have hmap : s.map (Job.id ∘ fun r => if r.id == j.id then j else r) = s.map Job.id := by
      apply List.map_congr_left
      intro a _
      simp only [Function.comp]
      by_cases hb : (a.id == j.id) = true
      · rw [if_pos hb]
        exact (eq_of_beq hb).symm
      · rw [if_neg hb]
    rw [hmap]
    exact h
  · rw [if_neg hc, List.map_append]
    rw [List.nodup_append]
    refine ⟨h, List.nodup_singleton _, ?_⟩
    intro a ha hb
    rcases List.mem_map.mp ha with ⟨r, hr, hrid⟩
    rw [List.map_singleton, List.mem_singleton] at hb
    have : (r.id == j.id) = true := beq_iff_eq.mpr (by rw [hrid, hb])
    exact hc (List.any_eq_true.mpr ⟨r, hr, this⟩)

theorem map_id_repoDelete_nodup (s : RepoState) (i : String)
    (h : (s.map Job.id).Nodup) : ((repoDelete s i).map Job.id).Nodup := by
  exact List.Nodup.sublist ((List.filter_sublist s).map Job.id) h

/-! ## Fold lemmas for the Python max -/

theorem pyMax_foldl_mem (l : List Job) (a : Job) :
    l.foldl (fun acc x => if acc.lt x then x else acc) a ∈ a :: l := by
  induction l generalizing a with
  | nil => simp
  | cons y l ih =>
    rw [List.foldl_cons]
    rcases List.mem_cons.mp (ih (if a.lt y then y else a)) with h1 | h1
    · rw [h1]
      by_cases hb : a.lt y = true
      · rw [if_pos hb]
        exact List.mem_cons.mpr (Or.inr (List.mem_cons_self _ _))
      · rw [if_neg hb]
        exact List.mem_cons_self _ _
    · exact List.mem_cons.mpr (Or.inr (List.mem_cons.mpr (Or.inr h1)))

theorem pyMax_foldl_le (l : List Job) (a : Job) :
    ∀ x ∈ a :: l,
      x.creationSeq ≤ (l.foldl (fun acc x => if acc.lt x then x else acc) a).creationSeq := by
  induction l generalizing a with
  | nil =>
    intro x hx
    rw [List.foldl_nil]
    rcases List.mem_cons.mp hx with h | h
    · rw [h]
    · cases h
  | cons y l ih =>
    intro x hx
    rw [List.foldl_cons]
    have hstep : ∀ z, z = a ∨ z = y →
        z.creationSeq ≤ (if a.lt y then y else a).creationSeq := by
      intro z hz
      by_cases hb : a.lt y = true
      · rw [if_pos hb]
        have hlt : a.creationSeq < y.creationSeq := by simpa [Job.lt] using hb
        rcases hz with h | h
        · rw [h]; exact Nat.le_of_lt hlt
        · rw [h]
      · rw [if_neg hb]
        have hle : y.creationSeq ≤ a.creationSeq := by
          simp only [Job.lt, decide_eq_true_eq] at hb
          exact Nat.le_of_not_lt hb
        rcases hz with h | h
        · rw [h]
        · rw [h]; exact hle
    rcases List.mem_cons.mp hx with h | h
    · exact le_trans (hstep x (Or.inl h))
        (ih (if a.lt y then y else a) _ (List.mem_cons_self _ _))
    · rcases List.mem_cons.mp h with h2 | h2
      · exact le_trans (hstep x (Or.inr h2))
          (ih (if a.lt y then y else a) _ (List.mem_cons_self _ _))
      · exact ih (if a.lt y then y else a) x (List.mem_cons.mpr (Or.inr h2))

theorem pyMax_eq_of_greatest (l : List Job) (m : Job) (hm : m ∈ l)
    (hgt : ∀ x ∈ l, x ≠ m → x.creationSeq < m.creationSeq) :
    JobManager.pyMax l = .ok m := by
  cases l with
  | nil => cases hm
  | cons a l =>
    simp only [JobManager.pyMax]
    have hrmem := pyMax_foldl_mem l a
    have hrge := pyMax_foldl_le l a m hm
    have heq : l.foldl (fun acc x => if acc.lt x then x else acc) a = m := by
      by_contra hne
      have := hgt _ hrmem hne
      omega
    rw [heq]

/-! ## Claim theorems -/

/-- C5: for every job `j`, calling `set(j)` and then `get(j.id)` returns a
job equal in all persisted fields to `j` (set/get round-trip), with no log
emitted. -/
theorem set_get_roundtrip (s : RepoState) (j : Job) :
    JobManager.get (JobManager.set s j) j.id = (.ok j, []) := by
  unfold JobManager.get JobManager.set
  rw [repoLoad_repoSave_self]

/-- C6: `get(job_id)` fails with `NonExistingJob` exactly when the
repository has no record for that identity; the failure is logged at error
severity; when a record exists, `get` returns the loaded job and logs
nothing. -/
theorem get_nonexisting_spec (s : RepoState) (i : String) (j : Job) :
    ((JobManager.get s i).1 = .error (.nonExistingJob i) ↔ repoLoad s i = none)
    ∧ ((JobManager.get s i).1 = .ok j ↔ repoLoad s i = some j)
    ∧ ((JobManager.get s i).2 =
        [⟨Severity.error, "Job: " ++ i ++ " does not exist."⟩] ↔ repoLoad s i = none) := by
  unfold JobManager.get
  cases h : repoLoad s i with
  | none => simp
  | some r => simp

/-- C8: `delete_all()` unconditionally empties the persisted store, with
no finished-state check on any job; afterwards `get_all()` returns the
empty sequence. -/
theorem delete_all_empties (s : RepoState) :
    JobManager.delete_all s = [] ∧ JobManager.get_all (JobManager.delete_all s) = [] :=
  ⟨rfl, rfl⟩

/-- C7: `create(task, callbacks)` returns a job whose identifier is
`"JOB_"` followed by the canonical string form of the drawn 128-bit random
identifier, whose state change is exactly one repository write persisting
the job, and whose subscribers are exactly the given callbacks. -/
theorem create_spec (s : RepoState) (u seq t : Nat) (cbs : List Nat) :
    (JobManager.create s u seq t cbs).1.id = "JOB_" ++ uuidCanonical u
    ∧ (JobManager.create s u seq t cbs).2 =
        repoSave s { id := createJobId u, task := t, status := .submitted,
                     creationSeq := seq, subscribers := [] }
    ∧ (JobManager.create s u seq t cbs).1.subscribers = cbs
    ∧ (JobManager.create s u seq t cbs).1.task = t := by
  refine ⟨rfl, rfl, ?_, rfl⟩
  simp [JobManager.create]

/-- C9: when the task-membership predicate of no persisted job includes `t`,
`get_latest_job(t)` propagates the built-in empty-maximum `ValueError`
of `max()`, which is not part of the domain error taxonomy of the manager. -/
theorem get_latest_job_empty (s : RepoState) (t : Nat)
    (h : ∀ j ∈ JobManager.get_all s, j.containsTask t = false) :
    JobManager.get_latest_job s t = .error (.valueError "max() arg is an empty sequence")
    ∧ (MgrError.valueError "max() arg is an empty sequence").isDomainError = false := by
  unfold JobManager.get_latest_job
  have hf : (JobManager.get_all s).filter (fun j => j.containsTask t) = [] := by
    rw [List.filter_eq_nil_iff]
    intro a ha
    simp [h a ha]
  rw [hf]
  exact ⟨rfl, rfl⟩

/-- C1: `delete(j, force=false)` deletes the persisted record iff
`j.is_finished()`; when `j` is not finished it raises
`JobNotDeletedException`, logged at warning severity, and leaves the state
unchanged so `get(j.id)` still succeeds; `delete(j, force=true)` always
deletes the record regardless of status. -/
theorem delete_gating (s : RepoState) (j r : Job)
    (hload : repoLoad s j.id = some r) :
    ((JobManager.delete s j false).1 = .ok () ↔ j.is_finished = true)
    ∧ ((JobManager.delete s j false).1 = .error (.jobNotDeletedException j.id)
        ↔ j.is_finished = false)
    ∧ (repoLoad (JobManager.delete s j false).2.1 j.id = none ↔ j.is_finished = true)
    ∧ ((JobManager.delete s j false).2.2 =
        [⟨Severity.warning, "JobNotDeletedException: " ++ j.id⟩] ↔ j.is_finished = false)
    ∧ ((JobManager.get (JobManager.delete s j false).2.1 j.id).1 = .ok r
        ↔ j.is_finished = false)
    ∧ (JobManager.delete s j true).1 = .ok ()
    ∧ repoLoad (JobManager.delete s j true).2.1 j.id = none := by
  cases hf : j.is_finished with
  | true => simp [JobManager.delete, JobManager.get, hf, repoLoad_repoDelete_self, hload]
  | false => simp [JobManager.delete, JobManager.get, hf, repoLoad_repoDelete_self, hload]

/-- A concrete finished job used by the witnesses. -/
def jobDone : Job :=
  { id := "JOB_done", task := 1, status := .completed, creationSeq := 0, subscribers := [] }

/-- A concrete running (non-terminal) job used by the witnesses. -/
def jobRun : Job :=
  { id := "JOB_run", task := 1, status := .running, creationSeq := 1, subscribers := [] }

/-- Witness for C1 at a store holding one running job. -/
theorem delete_gating_witness :
    repoLoad [jobRun] jobRun.id = some jobRun
    ∧ (((JobManager.delete [jobRun] jobRun false).1 = .ok () ↔ jobRun.is_finished = true)
    ∧ ((JobManager.delete [jobRun] jobRun false).1
        = .error (.jobNotDeletedException jobRun.id) ↔ jobRun.is_finished = false)
    ∧ (repoLoad (JobManager.delete [jobRun] jobRun false).2.1 jobRun.id = none
        ↔ jobRun.is_finished = true)
    ∧ ((JobManager.delete [jobRun] jobRun false).2.2 =
        [⟨Severity.warning, "JobNotDeletedException: " ++ jobRun.id⟩]
        ↔ jobRun.is_finished = false)
    ∧ ((JobManager.get (JobManager.delete [jobRun] jobRun false).2.1 jobRun.id).1
        = .ok jobRun ↔ jobRun.is_finished = false)
    ∧ (JobManager.delete [jobRun] jobRun true).1 = .ok ()
    ∧ repoLoad (JobManager.delete [jobRun] jobRun true).2.1 jobRun.id = none) :=
  ⟨by decide, delete_gating [jobRun] jobRun jobRun (by decide)⟩

/-- C10: `delete(job, force=false)` decides solely from the in-memory
`is_finished()` of the object passed as argument, never consulting the
persisted record: a terminal in-memory status deletes the record even when
the persisted record with that id is non-terminal, and a non-terminal
in-memory status raises `JobNotDeletedException` and leaves the state
unchanged even when the persisted record is terminal. -/
theorem delete_uses_in_memory_status (s₁ s₂ : RepoState) (j₁ r₁ j₂ r₂ : Job)
    (h₁ : repoLoad s₁ j₁.id = some r₁) (hj₁ : j₁.is_finished = true)
    (hr₁ : r₁.is_finished = false)
    (h₂ : repoLoad s₂ j₂.id = some r₂) (hj₂ : j₂.is_finished = false)
    (hr₂ : r₂.is_finished = true) :
    ((JobManager.delete s₁ j₁ false).1 = .ok ()
      ∧ repoLoad (JobManager.delete s₁ j₁ false).2.1 j₁.id = none)
    ∧ ((JobManager.delete s₂ j₂ false).1 = .error (.jobNotDeletedException j₂.id)
      ∧ (JobManager.delete s₂ j₂ false).2.1 = s₂) := by
  simp [JobManager.delete, hj₁, hj₂, repoLoad_repoDelete_self]

/-- The in-memory view of `jobRun`, already marked completed, while the
store still holds the running record. -/
def jobRunDoneView : Job :=
  { jobRun with status := .completed }

/-- The in-memory view of `jobDone`, still marked running, while the store
already holds the completed record. -/
def jobDoneRunView : Job :=
  { jobDone with status := .running }

/-- Witness for C10: the in-memory object and the persisted record disagree
on finishedness in both directions. -/
theorem delete_uses_in_memory_status_witness :
    repoLoad [jobRun] jobRunDoneView.id = some jobRun
    ∧ jobRunDoneView.is_finished = true
    ∧ jobRun.is_finished = false
    ∧ repoLoad [jobDone] jobDoneRunView.id = some jobDone
    ∧ jobDoneRunView.is_finished = false
    ∧ jobDone.is_finished = true
    ∧ (((JobManager.delete [jobRun] jobRunDoneView false).1 = .ok ()
        ∧ repoLoad (JobManager.delete [jobRun] jobRunDoneView false).2.1
            jobRunDoneView.id = none)
      ∧ ((JobManager.delete [jobDone] jobDoneRunView false).1
          = .error (.jobNotDeletedException jobDoneRunView.id)
        ∧ (JobManager.delete [jobDone] jobDoneRunView false).2.1 = [jobDone])) :=
  ⟨by decide, by decide, by decide, by decide, by decide, by decide,
    delete_uses_in_memory_status [jobRun] [jobDone] jobRunDoneView jobRun
      jobDoneRunView jobDone (by decide) (by decide) (by decide) (by decide)
      (by decide) (by decide)⟩

/-- C2: when the task-membership predicate of at least one persisted job
includes `t`, `get_latest_job(t)` returns the job that is greatest under
the job ordering among exactly the persisted jobs whose membership
predicate includes `t` (`m` is that greatest job, the ordering by creation
sequence being strict on the candidates). -/
theorem get_latest_job_greatest (s : RepoState) (t : Nat) (m : Job)
    (hm : m ∈ (JobManager.get_all s).filter (fun j => j.containsTask t))
    (hgt : ∀ x ∈ (JobManager.get_all s).filter (fun j => j.containsTask t),
        x ≠ m → x.creationSeq < m.creationSeq) :
    JobManager.get_latest_job s t = .ok m := by
  unfold JobManager.get_latest_job
  exact pyMax_eq_of_greatest _ m hm hgt

/-- Witness for C2 at a store holding two jobs of task 1. -/
theorem get_latest_job_greatest_witness :
    jobRun ∈ (JobManager.get_all [jobDone, jobRun]).filter (fun j => j.containsTask 1)
    ∧ (∀ x ∈ (JobManager.get_all [jobDone, jobRun]).filter (fun j => j.containsTask 1),
        x ≠ jobRun → x.creationSeq < jobRun.creationSeq)
    ∧ JobManager.get_latest_job [jobDone, jobRun] 1 = .ok jobRun :=
  ⟨by decide, by decide,
    get_latest_job_greatest [jobDone, jobRun] 1 jobRun (by decide) (by decide)⟩

/-- C3: for jobs `j₁` created before `j₂` (strictly smaller creation
sequence), both for task `t`, persisted into a store with no other job for
`t`: `get_latest_job(t)` returns `j₂`, and after `j₂` is deleted it
returns `j₁`. -/
theorem latest_job_create_order (s : RepoState) (t : Nat) (j₁ j₂ : Job)
    (ht₁ : j₁.containsTask t = true) (ht₂ : j₂.containsTask t = true)
    (hseq : j₁.creationSeq < j₂.creationSeq)
    (hfresh₁ : s.any (fun r => r.id == j₁.id) = false)
    (hfresh₂ : s.any (fun r => r.id == j₂.id) = false)
    (hne : j₁.id ≠ j₂.id)
    (hmatch : ∀ r ∈ s, r.containsTask t = false) :
    JobManager.get_latest_job (JobManager.set (JobManager.set s j₁) j₂) t = .ok j₂
    ∧ JobManager.get_latest_job
        (JobManager.delete (JobManager.set (JobManager.set s j₁) j₂) j₂ true).2.1 t
      = .ok j₁ := by
  have hfs : s.filter (fun j => j.containsTask t) = [] := by
    rw [List.filter_eq_nil_iff]
    intro a ha
    simp [hmatch a ha]
  have h1 : JobManager.set s j₁ = s ++ [j₁] := by
    simp [JobManager.set, repoSave, hfresh₁]
  have hne₂ : (j₁.id == j₂.id) = false := beq_eq_false_iff_ne.mpr hne
  have h2 : JobManager.set (JobManager.set s j₁) j₂ = s ++ [j₁] ++ [j₂] := by
    rw [h1]
    simp [JobManager.set, repoSave, List.any_append, hfresh₂, hne₂]
  constructor
  · rw [h2]
    unfold JobManager.get_latest_job
    have hcand : (JobManager.get_all (s ++ [j₁] ++ [j₂])).filter
        (fun j => j.containsTask t) = [j₁, j₂] := by
      simp [JobManager.get_all, repoLoadAll, List.filter_append, hfs, ht₁, ht₂]
    rw [hcand]
    simp only [JobManager.pyMax, List.foldl_cons, List.foldl_nil]
    have hlt : Job.lt j₁ j₂ = true := by simp [Job.lt, hseq]
    rw [hlt, if_pos rfl]
  · have hdel : (JobManager.delete (JobManager.set (JobManager.set s j₁) j₂) j₂ true).2.1
        = s ++ [j₁] := by
      rw [h2]
      simp only [JobManager.delete, Bool.or_true, if_pos]
      show repoDelete (s ++ [j₁] ++ [j₂]) j₂.id = s ++ [j₁]
      unfold repoDelete
      rw [List.filter_append, List.filter_append]
      have hs : s.filter (fun r => r.id != j₂.id) = s := by
        rw [List.filter_eq_self]
        intro a ha
        have : (a.id == j₂.id) = false := by
          rcases hb : a.id == j₂.id with _ | _
          · rfl
          · have hany : (s.any fun r => r.id == j₂.id) = true :=
              List.any_eq_true.mpr ⟨a, ha, hb⟩
            rw [hfresh₂] at hany
            exact Bool.noConfusion hany
        simp [bne, this]
      rw [hs]
      simp [bne, hne₂]
    rw [hdel]
    unfold JobManager.get_latest_job
    have hcand : (JobManager.get_all (s ++ [j₁])).filter
        (fun j => j.containsTask t) = [j₁] := by
      simp [JobManager.get_all, repoLoadAll, List.filter_append, hfs, ht₁]
    rw [hcand]
    rfl

/-- Witness for C3 starting from the empty store with two jobs of task 1. -/
theorem latest_job_create_order_witness :
    jobDone.containsTask 1 = true
    ∧ jobRun.containsTask 1 = true
    ∧ jobDone.creationSeq < jobRun.creationSeq
    ∧ jobDone.id ≠ jobRun.id
    ∧ JobManager.get_latest_job
        (JobManager.set (JobManager.set [] jobDone) jobRun) 1 = .ok jobRun
    ∧ JobManager.get_latest_job
        (JobManager.delete (JobManager.set (JobManager.set [] jobDone) jobRun)
          jobRun true).2.1 1 = .ok jobDone := by
  have h := latest_job_create_order [] 1 jobDone jobRun (by decide) (by decide)
    (by decide) (by decide) (by decide) (by decide) (by intro r hr; cases hr)
  exact ⟨by decide, by decide, by decide, by decide, h.1, h.2⟩

/-- Witness for C9 at the empty repository and task 0. -/
theorem get_latest_job_empty_witness :
    JobManager.get_latest_job [] 0 = .error (.valueError "max() arg is an empty sequence")
    ∧ (MgrError.valueError "max() arg is an empty sequence").isDomainError = false :=
  get_latest_job_empty [] 0 (by intro j hj; simp [JobManager.get_all, repoLoadAll] at hj)

/-- C4: two `create` calls whose drawn 128-bit random identifiers differ
return jobs with distinct identities, and distinctness of the persisted
identities is preserved by `set`, `delete` and `delete_all`. -/
theorem create_ids_unique (s₁ s₂ : RepoState) (u₁ u₂ seq₁ seq₂ t₁ t₂ : Nat)
    (cb₁ cb₂ : List Nat) (h : u₁ % 2 ^ 128 ≠ u₂ % 2 ^ 128) :
    (JobManager.create s₁ u₁ seq₁ t₁ cb₁).1.id ≠ (JobManager.create s₂ u₂ seq₂ t₂ cb₂).1.id
    ∧ (∀ (s : RepoState) (j : Job), (s.map Job.id).Nodup →
        ((JobManager.set s j).map Job.id).Nodup)
    ∧ (∀ (s : RepoState) (j : Job) (f : Bool), (s.map Job.id).Nodup →
        (((JobManager.delete s j f).2.1).map Job.id).Nodup)
    ∧ (∀ s : RepoState, ((JobManager.delete_all s).map Job.id).Nodup) := by
  refine ⟨?_, ?_, ?_, ?_⟩
  · intro heq
    have hdata : ("JOB_" ++ uuidCanonical u₁).data = ("JOB_" ++ uuidCanonical u₂).data :=
      congrArg String.data heq
    rw [String.data_append, String.data_append] at hdata
    exact h (uuidCanonical_inj u₁ u₂ (List.append_cancel_left hdata))
  · intro s j hnd
    exact map_id_repoSave_nodup s j hnd
  · intro s j f hnd
    by_cases hc : (j.is_finished || f) = true
    · simp only [JobManager.delete, hc, if_true]
      exact map_id_repoDelete_nodup s j.id hnd
    · simp only [JobManager.delete, hc, if_false]
      exact hnd
  · intro s
    simp [JobManager.delete_all, repoDeleteAll]

/-- Witness for C4 at the random draws 0 and 1. -/
theorem create_ids_unique_witness :
    (0 : Nat) % 2 ^ 128 ≠ (1 : Nat) % 2 ^ 128
    ∧ ((JobManager.create [] 0 0 0 []).1.id ≠ (JobManager.create [] 1 1 0 []).1.id
      ∧ (∀ (s : RepoState) (j : Job), (s.map Job.id).Nodup →
          ((JobManager.set s j).map Job.id).Nodup)
      ∧ (∀ (s : RepoState) (j : Job) (f : Bool), (s.map Job.id).Nodup →
          (((JobManager.delete s j f).2.1).map Job.id).Nodup)
      ∧ (∀ s : RepoState, ((JobManager.delete_all s).map Job.id).Nodup)) :=
  ⟨by decide, create_ids_unique [] [] 0 1 0 1 0 0 [] [] (by decide)⟩
